import Mathlib

/-!
Shallow embedding of the spiral-fun program (`spiralfun.py`).

Floating-point arithmetic of the source is modelled by exact real
arithmetic (`ℝ`).  Points are pairs of reals, a circle is a record of a
center, a radius and a draw flag, and the chain of circles owned by the
`Space` object is a `List Circle`.  The `IndexError` raised by
`Space.rotate_circle` is modelled by `Except`: the `error` value carries
the (unchanged) chain state at the moment the exception is raised.
Rendering calls (canvas ovals, lines, movie frames) have no effect on the
geometric state and are not modelled.
-/

open Real

/-- Python `math.radians`. -/
noncomputable def radians (x : ℝ) : ℝ := x * Real.pi / 180

/-- `STEP_SIZE = math.radians(1) * 0.05`. -/
noncomputable def STEP_SIZE : ℝ := radians 1 * 0.05

/-- `REDRAW_STEP = math.radians(1)`. -/
noncomputable def REDRAW_STEP : ℝ := radians 1

/-- `calc_distance(point1, point2)` from the source. -/
noncomputable def calc_distance (point1 point2 : ℝ × ℝ) : ℝ :=
  Real.sqrt ((point2.1 - point1.1) ^ 2 + (point2.2 - point1.2) ^ 2)

/-- `calc_angle(origin, point)` from the source: clamped-asin angle with a
left/right branch. -/
noncomputable def calc_angle (origin point : ℝ × ℝ) : ℝ :=
  let dy := point.2 - origin.2
  let r := calc_distance origin point
  let dy := if dy > r then r else dy
  let dy := if dy < -r then -r else dy
  let angle := Real.arcsin (dy / r)
  if point.1 > origin.1 then angle else Real.pi - angle

lemma calc_distance_nonneg (p q : ℝ × ℝ) : 0 ≤ calc_distance p q :=
  Real.sqrt_nonneg _

lemma calc_distance_pos (O P : ℝ × ℝ) (h : P ≠ O) : 0 < calc_distance O P := by
  unfold calc_distance
  apply Real.sqrt_pos.mpr
  rcases eq_or_ne P.1 O.1 with h1 | h1
  · have h2 : P.2 - O.2 ≠ 0 := by
      intro hz
      exact h (Prod.ext_iff.mpr ⟨h1, by linarith⟩)
    have : 0 < (P.2 - O.2) ^ 2 := by positivity
    nlinarith [sq_nonneg (P.1 - O.1)]
  · have h2 : P.1 - O.1 ≠ 0 := sub_ne_zero.mpr h1
    have : 0 < (P.1 - O.1) ^ 2 := by positivity
    nlinarith [sq_nonneg (P.2 - O.2)]

lemma abs_dy_le_calc_distance (O P : ℝ × ℝ) : |P.2 - O.2| ≤ calc_distance O P := by
  unfold calc_distance
  rw [← Real.sqrt_sq_eq_abs]
  exact Real.sqrt_le_sqrt (by nlinarith [sq_nonneg (P.1 - O.1)])

/-- Key geometric property of `calc_angle`: for `P ≠ O` the pair
`(cos θ, sin θ)` with `θ = calc_angle O P` is the unit vector from `O`
towards `P`, so `P` is recovered from its polar form. -/
lemma calc_angle_reconstruct (O P : ℝ × ℝ) (h : P ≠ O) :
    (Real.cos (calc_angle O P) * calc_distance O P + O.1,
     Real.sin (calc_angle O P) * calc_distance O P + O.2) = P := by
  have hr : 0 < calc_distance O P := calc_distance_pos O P h
  have habs : |P.2 - O.2| ≤ calc_distance O P := abs_dy_le_calc_distance O P
  have h1 : ¬ (P.2 - O.2 > calc_distance O P) :=
    not_lt.mpr ((le_abs_self _).trans habs)
  have h2 : ¬ (P.2 - O.2 < -(calc_distance O P)) :=
    not_lt.mpr ((neg_le_neg habs).trans (neg_abs_le _))
  have hdiv_le : (P.2 - O.2) / calc_distance O P ≤ 1 :=
    (div_le_one hr).mpr ((le_abs_self _).trans habs)
  have hdiv_ge : -1 ≤ (P.2 - O.2) / calc_distance O P := by
    rw [le_div_iff hr]
    have := (neg_le_neg habs).trans (neg_abs_le (P.2 - O.2))
    linarith
  have hsin : Real.sin (Real.arcsin ((P.2 - O.2) / calc_distance O P))
      = (P.2 - O.2) / calc_distance O P := Real.sin_arcsin hdiv_ge hdiv_le
  have hsq : calc_distance O P ^ 2 = (P.1 - O.1) ^ 2 + (P.2 - O.2) ^ 2 := by
    unfold calc_distance
    exact Real.sq_sqrt (by positivity)
  have hcos : Real.cos (Real.arcsin ((P.2 - O.2) / calc_distance O P))
      = |P.1 - O.1| / calc_distance O P := by
    rw [Real.cos_arcsin]
    have hx : 1 - ((P.2 - O.2) / calc_distance O P) ^ 2
        = (P.1 - O.1) ^ 2 / calc_distance O P ^ 2 := by
      field_simp
      linarith [hsq]
    rw [hx, Real.sqrt_div (sq_nonneg _), Real.sqrt_sq_eq_abs, Real.sqrt_sq hr.le]
  unfold calc_angle
  simp only [if_neg h1, if_neg h2]
  by_cases hx : P.1 > O.1
  · rw [if_pos hx]
    have habs1 : |P.1 - O.1| = P.1 - O.1 := abs_of_pos (by linarith)
    have hc : Real.cos (Real.arcsin ((P.2 - O.2) / calc_distance O P))
        * calc_distance O P + O.1 = P.1 := by
      rw [hcos, habs1]
      field_simp
    have hs : Real.sin (Real.arcsin ((P.2 - O.2) / calc_distance O P))
        * calc_distance O P + O.2 = P.2 := by
      rw [hsin]
      field_simp
    exact Prod.ext_iff.mpr ⟨hc, hs⟩
  · rw [if_neg hx]
    have habs1 : |P.1 - O.1| = -(P.1 - O.1) := abs_of_nonpos (by push_neg at hx; linarith)
    have hc : Real.cos (Real.pi - Real.arcsin ((P.2 - O.2) / calc_distance O P))
        * calc_distance O P + O.1 = P.1 := by
      rw [Real.cos_pi_sub, hcos, habs1]
      field_simp
    have hs : Real.sin (Real.pi - Real.arcsin ((P.2 - O.2) / calc_distance O P))
        * calc_distance O P + O.2 = P.2 := by
      rw [Real.sin_pi_sub, hsin]
      field_simp
    exact Prod.ext_iff.mpr ⟨hc, hs⟩

/-- C1 counterexample: for `O = (0,0)` and `P = (3,-4)` (below and to the
right of the origin) `calc_angle` returns `arcsin (-4/5) < 0`, outside
`[0, π]`. -/
theorem calc_angle_not_in_unit_interval :
    calc_angle ((0 : ℝ), (0 : ℝ)) ((3 : ℝ), (-4 : ℝ)) ∉ Set.Icc 0 Real.pi := by
  have hd : calc_distance ((0 : ℝ), (0 : ℝ)) ((3 : ℝ), (-4 : ℝ)) = 5 := by
    unfold calc_distance
    rw [show ((3 : ℝ) - 0) ^ 2 + ((-4 : ℝ) - 0) ^ 2 = 5 ^ 2 by norm_num]
    exact Real.sqrt_sq (by norm_num)
  have hval : calc_angle ((0 : ℝ), (0 : ℝ)) ((3 : ℝ), (-4 : ℝ))
      = Real.arcsin (-4 / 5) := by
    unfold calc_angle
    rw [hd]
    norm_num
  intro hmem
  have hneg : Real.arcsin (-4 / 5) < 0 := Real.arcsin_lt_zero.mpr (by norm_num)
  rw [hval] at hmem
  exact absurd hmem.1 (not_le.mpr hneg)

/-- C1 (amended): for every pair of points `O` and `P` with `P ≠ O`,
`calc_angle O P` lies in `[-π/2, 3π/2]` (not `[0, π]`): the `asin` branch
taken when `P.1 > O.1` can return negative angles down to `-π/2`, and the
mirrored branch can return angles up to `3π/2`. -/
theorem calc_angle_mem_Icc (O P : ℝ × ℝ) (h : P ≠ O) :
    calc_angle O P ∈ Set.Icc (-(Real.pi / 2)) (3 * Real.pi / 2) := by
  unfold calc_angle
  by_cases hx : P.1 > O.1
  · simp only [if_pos hx]
    have := Real.arcsin_mem_Icc
      ((if (if P.2 - O.2 > calc_distance O P then calc_distance O P else P.2 - O.2)
          < -(calc_distance O P) then -(calc_distance O P)
        else if P.2 - O.2 > calc_distance O P then calc_distance O P else P.2 - O.2)
        / calc_distance O P)
    constructor
    · exact this.1
    · have hpi := Real.pi_pos
      have := this.2
      linarith
  · simp only [if_neg hx]
    have := Real.arcsin_mem_Icc
      ((if (if P.2 - O.2 > calc_distance O P then calc_distance O P else P.2 - O.2)
          < -(calc_distance O P) then -(calc_distance O P)
        else if P.2 - O.2 > calc_distance O P then calc_distance O P else P.2 - O.2)
        / calc_distance O P)
    have hpi := Real.pi_pos
    constructor
    · have := this.2
      linarith
    · have := this.1
      linarith

/-- C1 amended-theorem witness at `O = (0,0)`, `P = (1,0)`. -/
theorem calc_angle_mem_Icc_witness :
    calc_angle ((0 : ℝ), (0 : ℝ)) ((1 : ℝ), (0 : ℝ))
      ∈ Set.Icc (-(Real.pi / 2)) (3 * Real.pi / 2) :=
  calc_angle_mem_Icc ((0 : ℝ), (0 : ℝ)) ((1 : ℝ), (0 : ℝ))
    (by simp [Prod.ext_iff])

namespace Spiralfun

/-- A `Circle` of the chain: its mutable center, fixed radius and the
draw-trace flag set by `set_draw`. -/
structure Circle where
  center : ℝ × ℝ
  radius : ℝ
  draw : Bool

instance : Inhabited Circle := ⟨⟨((0 : ℝ), (0 : ℝ)), 0, false⟩⟩

/-- The pure center update performed by `Circle.rotate`: recompute the
angle of `center` around `rotation_center` via `calc_angle`, step it by
`STEP_SIZE` (clockwise subtracts, counterclockwise adds), and convert
back from polar form. -/
noncomputable def rotate_point (rotation_center center : ℝ × ℝ) (clockwise : Bool) : ℝ × ℝ :=
  let angle := calc_angle rotation_center center
    + (if clockwise then -STEP_SIZE else STEP_SIZE)
  let d := calc_distance rotation_center center
  (Real.cos angle * d + rotation_center.1, Real.sin angle * d + rotation_center.2)

/-- `Circle.rotate(rotation_center, clockwise)` from the source (the
`moveto` rendering side effects are dropped; only the center moves). -/
noncomputable def Circle.rotate (c : Circle) (rotation_center : ℝ × ℝ)
    (clockwise : Bool) : Circle :=
  { c with center := rotate_point rotation_center c.center clockwise }

lemma calc_distance_polar (O : ℝ × ℝ) (r a : ℝ) (hr : 0 ≤ r) :
    calc_distance O (Real.cos a * r + O.1, Real.sin a * r + O.2) = r := by
  unfold calc_distance
  have key : (Real.cos a * r + O.1 - O.1) ^ 2 + (Real.sin a * r + O.2 - O.2) ^ 2
      = r ^ 2 := by
    have h := Real.sin_sq_add_cos_sq a
    linear_combination r ^ 2 * h
  rw [key, Real.sqrt_sq hr]

lemma calc_distance_self (O : ℝ × ℝ) : calc_distance O O = 0 := by
  unfold calc_distance
  simp

/-- On a point in polar form around `O`, `rotate_point` shifts the polar
angle by exactly one signed `STEP_SIZE`. -/
lemma rotate_point_polar (O : ℝ × ℝ) (r a : ℝ) (hr : 0 < r) (cw : Bool) :
    rotate_point O (Real.cos a * r + O.1, Real.sin a * r + O.2) cw
      = (Real.cos (a + (if cw then -STEP_SIZE else STEP_SIZE)) * r + O.1,
         Real.sin (a + (if cw then -STEP_SIZE else STEP_SIZE)) * r + O.2) := by
  set P : ℝ × ℝ := (Real.cos a * r + O.1, Real.sin a * r + O.2) with hP
  have hd : calc_distance O P = r := calc_distance_polar O r a hr.le
  have hPne : P ≠ O := by
    intro he
    rw [he, calc_distance_self] at hd
    linarith
  have hrec := calc_angle_reconstruct O P hPne
  have hcos : Real.cos (calc_angle O P) = Real.cos a := by
    have h1 := congrArg Prod.fst hrec
    simp only [hP, hd] at h1
    have := add_right_cancel h1
    exact mul_right_cancel₀ hr.ne' this
  have hsin : Real.sin (calc_angle O P) = Real.sin a := by
    have h1 := congrArg Prod.snd hrec
    simp only [hP, hd] at h1
    have := add_right_cancel h1
    exact mul_right_cancel₀ hr.ne' this
  unfold rotate_point
  simp only [hd]
  have hc : Real.cos (calc_angle O P + (if cw then -STEP_SIZE else STEP_SIZE))
      = Real.cos (a + (if cw then -STEP_SIZE else STEP_SIZE)) := by
    rw [Real.cos_add, Real.cos_add, hcos, hsin]
  have hs : Real.sin (calc_angle O P + (if cw then -STEP_SIZE else STEP_SIZE))
      = Real.sin (a + (if cw then -STEP_SIZE else STEP_SIZE)) := by
    rw [Real.sin_add, Real.sin_add, hcos, hsin]
  rw [hc, hs]

/-- `rotate_point` preserves the distance to the rotation center. -/
lemma rotate_point_dist (O P : ℝ × ℝ) (cw : Bool) :
    calc_distance O (rotate_point O P cw) = calc_distance O P := by
  unfold rotate_point
  exact calc_distance_polar O _ _ (calc_distance_nonneg O P)

/-- C5: for every `P ≠ O`, one counterclockwise `rotate_point` step
followed by one clockwise step returns `P` exactly (in the exact real
model of the floating-point code). -/
theorem rotate_point_roundtrip (O P : ℝ × ℝ) (h : P ≠ O) :
    rotate_point O (rotate_point O P false) true = P := by
  have hr : 0 < calc_distance O P := calc_distance_pos O P h
  have hrec := calc_angle_reconstruct O P h
  have h1 : rotate_point O P false
      = (Real.cos (calc_angle O P + STEP_SIZE) * calc_distance O P + O.1,
         Real.sin (calc_angle O P + STEP_SIZE) * calc_distance O P + O.2) := by
    unfold rotate_point
    simp
  rw [h1, rotate_point_polar O (calc_distance O P) (calc_angle O P + STEP_SIZE) hr true]
  simp only [if_pos]
  rw [show calc_angle O P + STEP_SIZE + -STEP_SIZE = calc_angle O P by ring]
  exact hrec

/-- C5 witness at `O = (0,0)`, `P = (1,0)`. -/
theorem rotate_point_roundtrip_witness :
    rotate_point ((0 : ℝ), (0 : ℝ))
        (rotate_point ((0 : ℝ), (0 : ℝ)) ((1 : ℝ), (0 : ℝ)) false) true
      = ((1 : ℝ), (0 : ℝ)) :=
  rotate_point_roundtrip ((0 : ℝ), (0 : ℝ)) ((1 : ℝ), (0 : ℝ))
    (by simp [Prod.ext_iff])

/-- `Space.add_circle(radius, draw_line)` from the source: the first
circle is centered at the origin, every later circle is stacked along +y
from the previous circle's center by the sum of the two radii. -/
noncomputable def Space.add_circle (circles : List Circle) (radius : ℝ)
    (draw_line : Bool) : List Circle :=
  match circles.getLast? with
  | none =>
      circles ++ [{ center := ((0 : ℝ), (0 : ℝ)), radius := radius, draw := draw_line }]
  | some prev_circle =>
      circles ++
        [{ center := (prev_circle.center.1,
              prev_circle.center.2 + prev_circle.radius + radius),
           radius := radius, draw := draw_line }]

/-- `Space.rotate_circle(index, nsteps)` from the source.  The
`IndexError` is the `error` branch and carries the unchanged chain; the
`ok` branch performs, for every position `i` in `[index, len)`, the inner
loop of `abs(nsteps)` calls to `Circle.rotate` around the pivot center
captured before the loops. -/
noncomputable def Space.rotate_circle (circles : List Circle) (index nsteps : ℤ) :
    Except (List Circle) (List Circle) :=
  if index < 1 ∨ (circles.length : ℤ) ≤ index then Except.error circles
  else
    let rotation_center := (circles.getD (index.toNat - 1) default).center
    let clockwise := decide (nsteps > 0)
    Except.ok ((List.range' index.toNat (circles.length - index.toNat)).foldl
      (fun cs i =>
        cs.set i ((fun c => Circle.rotate c rotation_center clockwise)^[nsteps.natAbs]
          (cs.getD i default)))
      circles)

lemma foldl_set_length (f : Circle → Circle) (L : List ℕ) (cs : List Circle) :
    (L.foldl (fun l i => l.set i (f (l.getD i default))) cs).length = cs.length := by
  induction L generalizing cs with
  | nil => rfl
  | cons a L ih => rw [List.foldl_cons, ih, List.length_set]

/-- Effect of the index loop of `rotate_circle`: position `j` of the
result holds `f` applied to the old element exactly when `j` lies in the
looped range, and the old element otherwise. -/
lemma foldl_set_getElem? (f : Circle → Circle) :
    ∀ (b a : ℕ) (cs : List Circle) (j : ℕ),
      ((List.range' a b).foldl (fun l i => l.set i (f (l.getD i default))) cs)[j]?
        = if a ≤ j ∧ j < a + b then (cs[j]?).map f else cs[j]? := by
  intro b
  induction b with
  | zero =>
      intro a cs j
      rw [List.range'_zero, List.foldl_nil, if_neg (by omega)]
  | succ b ih =>
      intro a cs j
      rw [List.range'_succ, List.foldl_cons, ih]
      by_cases hja : j = a
      · subst hja
        rw [if_neg (by omega), if_pos (by omega)]
        by_cases hlen : j < cs.length
        · rw [List.getElem?_set_self hlen,
            List.getD_eq_getElem?_getD, List.getElem?_eq_getElem hlen]
          rfl
        · rw [List.set_eq_of_length_le (by omega),
            List.getElem?_eq_none_iff.mpr (by omega)]
          rfl
      · rw [List.getElem?_set_ne (fun he => hja he.symm)]
        have hiff : (a + 1 ≤ j ∧ j < a + 1 + b) ↔ (a ≤ j ∧ j < a + (b + 1)) := by omega
        simp only [hiff]

/-- Full characterisation of a valid `rotate_circle` call, shared by the
claims below: the call succeeds, preserves the chain length, rotates each
circle at position `>= index` exactly `nsteps.natAbs` times around the
pivot center captured from the original chain, and leaves positions
`< index` untouched. -/
lemma rotate_circle_spec (cs : List Circle) (index nsteps : ℤ)
    (h1 : 1 ≤ index) (h2 : index < (cs.length : ℤ)) :
    ∃ res, Space.rotate_circle cs index nsteps = Except.ok res ∧
      res.length = cs.length ∧
      ∀ j : ℕ, res[j]? =
        if index.toNat ≤ j then
          (cs[j]?).map
            ((fun c => Circle.rotate c (cs.getD (index.toNat - 1) default).center
              (decide (nsteps > 0)))^[nsteps.natAbs])
        else cs[j]? := by
  unfold Space.rotate_circle
  rw [if_neg (by omega)]
  refine ⟨_, rfl, foldl_set_length _ _ _, ?_⟩
  intro j
  rw [foldl_set_getElem?]
  by_cases hlen : j < cs.length
  · by_cases hj : index.toNat ≤ j
    · rw [if_pos ⟨hj, by omega⟩, if_pos hj]
    · rw [if_neg (by omega), if_neg hj]
  · rw [List.getElem?_eq_none_iff.mpr (by omega)]
    simp

/-- C2: a `rotate_segment` call with index outside `[1, chain length)`
fails with the out-of-range error and leaves the whole chain state
unchanged (the `error` value is the original chain), while an index inside
`[1, chain length)` raises no error. -/
theorem rotate_circle_index_check (cs : List Circle) (index nsteps : ℤ) :
    (index < 1 ∨ (cs.length : ℤ) ≤ index →
        Space.rotate_circle cs index nsteps = Except.error cs) ∧
    (1 ≤ index → index < (cs.length : ℤ) →
        ∃ res, Space.rotate_circle cs index nsteps = Except.ok res) := by
  constructor
  · intro h
    unfold Space.rotate_circle
    rw [if_pos h]
  · intro h1 h2
    obtain ⟨res, hres, -, -⟩ := rotate_circle_spec cs index nsteps h1 h2
    exact ⟨res, hres⟩

/-- C2 witness on a concrete two-circle chain: index `0` errors without
mutating, index `1` succeeds. -/
theorem rotate_circle_index_check_witness :
    (Space.rotate_circle
        [⟨((0 : ℝ), (0 : ℝ)), 1, false⟩, ⟨((0 : ℝ), (2 : ℝ)), 1, false⟩] 0 5
      = Except.error
        [⟨((0 : ℝ), (0 : ℝ)), 1, false⟩, ⟨((0 : ℝ), (2 : ℝ)), 1, false⟩]) ∧
    (∃ res, Space.rotate_circle
        [⟨((0 : ℝ), (0 : ℝ)), 1, false⟩, ⟨((0 : ℝ), (2 : ℝ)), 1, false⟩] 1 5
      = Except.ok res) :=
  ⟨(rotate_circle_index_check _ 0 5).1 (Or.inl (by norm_num)),
   (rotate_circle_index_check _ 1 5).2 (by norm_num) (by simp)⟩

/-- C3: a valid `rotate_segment(index, steps)` call succeeds and returns a
chain of the same length in which every circle at position `>= index` is
rotated exactly `abs steps` times around the center of circle `index - 1`
as it was at the start of the call (the pivot is read from the original
chain, once), clockwise when `steps > 0` and counterclockwise otherwise,
and every circle at position `< index` is unchanged. -/
theorem rotate_circle_valid_spec (cs : List Circle) (index nsteps : ℤ)
    (h1 : 1 ≤ index) (h2 : index < (cs.length : ℤ)) :
    ∃ res, Space.rotate_circle cs index nsteps = Except.ok res ∧
      res.length = cs.length ∧
      ∀ j : ℕ, res[j]? =
        if index.toNat ≤ j then
          (cs[j]?).map
            ((fun c => Circle.rotate c (cs.getD (index.toNat - 1) default).center
              (decide (nsteps > 0)))^[nsteps.natAbs])
        else cs[j]? :=
  rotate_circle_spec cs index nsteps h1 h2

/-- C3 witness on a concrete two-circle chain with `index = 1`,
`steps = 1`. -/
theorem rotate_circle_valid_spec_witness :
    ∃ res, Space.rotate_circle
        [⟨((0 : ℝ), (0 : ℝ)), 1, false⟩, ⟨((0 : ℝ), (2 : ℝ)), 1, false⟩] 1 1
      = Except.ok res ∧
      res.length
        = ([⟨((0 : ℝ), (0 : ℝ)), 1, false⟩,
            ⟨((0 : ℝ), (2 : ℝ)), 1, false⟩] : List Circle).length ∧
      ∀ j : ℕ, res[j]? =
        if (1 : ℤ).toNat ≤ j then
          ((([⟨((0 : ℝ), (0 : ℝ)), 1, false⟩,
              ⟨((0 : ℝ), (2 : ℝ)), 1, false⟩] : List Circle)[j]?).map
            ((fun c => Circle.rotate c
                (([⟨((0 : ℝ), (0 : ℝ)), 1, false⟩,
                   ⟨((0 : ℝ), (2 : ℝ)), 1, false⟩] : List Circle).getD
                  ((1 : ℤ).toNat - 1) default).center
                (decide ((1 : ℤ) > 0)))^[(1 : ℤ).natAbs]))
        else ([⟨((0 : ℝ), (0 : ℝ)), 1, false⟩,
               ⟨((0 : ℝ), (2 : ℝ)), 1, false⟩] : List Circle)[j]? :=
  rotate_circle_valid_spec _ 1 1 (by norm_num) (by simp)

lemma rotate_iterate_dist (rc : ℝ × ℝ) (cw : Bool) (n : ℕ) (c : Circle) :
    calc_distance rc (((fun c => Circle.rotate c rc cw)^[n]) c).center
      = calc_distance rc c.center := by
  induction n with
  | zero => rfl
  | succ n ih =>
      rw [Function.iterate_succ_apply']
      have hstep : (Circle.rotate ((fun c => Circle.rotate c rc cw)^[n] c) rc cw).center
          = rotate_point rc (((fun c => Circle.rotate c rc cw)^[n]) c).center cw := rfl
      rw [hstep, rotate_point_dist]
      exact ih

/-- C4: a valid `rotate_segment` call preserves, for every circle of the
chain, its distance from the pivot center (exact real arithmetic). -/
theorem rotate_circle_preserves_pivot_distance (cs : List Circle) (index nsteps : ℤ)
    (h1 : 1 ≤ index) (h2 : index < (cs.length : ℤ)) :
    ∃ res, Space.rotate_circle cs index nsteps = Except.ok res ∧
      ∀ j : ℕ, ∀ c c' : Circle, cs[j]? = some c → res[j]? = some c' →
        calc_distance (cs.getD (index.toNat - 1) default).center c'.center
          = calc_distance (cs.getD (index.toNat - 1) default).center c.center := by
  obtain ⟨res, hres, hlen, hget⟩ := rotate_circle_spec cs index nsteps h1 h2
  refine ⟨res, hres, ?_⟩
  intro j c c' hc hc'
  rw [hget j] at hc'
  by_cases hj : index.toNat ≤ j
  · rw [if_pos hj, hc] at hc'
    simp only [Option.map_some'] at hc'
    rw [← Option.some_inj.mp hc']
    exact rotate_iterate_dist _ _ _ c
  · rw [if_neg hj, hc] at hc'
    rw [Option.some_inj.mp hc']

/-- C4 witness on a concrete two-circle chain. -/
theorem rotate_circle_preserves_pivot_distance_witness :
    ∃ res, Space.rotate_circle
        [⟨((0 : ℝ), (0 : ℝ)), 1, false⟩, ⟨((0 : ℝ), (2 : ℝ)), 1, false⟩] 1 3
      = Except.ok res ∧
      ∀ j : ℕ, ∀ c c' : Circle,
        ([⟨((0 : ℝ), (0 : ℝ)), 1, false⟩,
          ⟨((0 : ℝ), (2 : ℝ)), 1, false⟩] : List Circle)[j]? = some c →
        res[j]? = some c' →
        calc_distance
            (([⟨((0 : ℝ), (0 : ℝ)), 1, false⟩,
               ⟨((0 : ℝ), (2 : ℝ)), 1, false⟩] : List Circle).getD
              ((1 : ℤ).toNat - 1) default).center c'.center
          = calc_distance
            (([⟨((0 : ℝ), (0 : ℝ)), 1, false⟩,
               ⟨((0 : ℝ), (2 : ℝ)), 1, false⟩] : List Circle).getD
              ((1 : ℤ).toNat - 1) default).center c.center :=
  rotate_circle_preserves_pivot_distance _ 1 3 (by norm_num) (by simp)

/-- C7: a valid `rotate_segment(index, 0)` call is a no-op: it returns the
chain unchanged. -/
theorem rotate_circle_zero_steps (cs : List Circle) (index : ℤ)
    (h1 : 1 ≤ index) (h2 : index < (cs.length : ℤ)) :
    Space.rotate_circle cs index 0 = Except.ok cs := by
  obtain ⟨res, hres, hlen, hget⟩ := rotate_circle_spec cs index 0 h1 h2
  have hre : res = cs := by
    apply List.ext_getElem?
    intro j
    rw [hget j]
    by_cases hj : index.toNat ≤ j
    · rw [if_pos hj]
      simp [Function.iterate_zero]
    · rw [if_neg hj]
  rw [hres, hre]

/-- C7 witness on a concrete two-circle chain. -/
theorem rotate_circle_zero_steps_witness :
    Space.rotate_circle
        [⟨((0 : ℝ), (0 : ℝ)), 1, false⟩, ⟨((0 : ℝ), (2 : ℝ)), 1, false⟩] 1 0
      = Except.ok
        [⟨((0 : ℝ), (0 : ℝ)), 1, false⟩, ⟨((0 : ℝ), (2 : ℝ)), 1, false⟩] :=
  rotate_circle_zero_steps _ 1 (by norm_num) (by simp)

/-- C6: `add_circle` on an empty chain places the new circle at the
origin; on a non-empty chain it places it directly above the previous
circle, offset along +y by the sum of the two radii, so (for positive
radii) its distance from the previous center is exactly that sum. -/
theorem add_circle_placement (cs : List Circle) (r : ℝ) (d : Bool) :
    Space.add_circle [] r d = [⟨((0 : ℝ), (0 : ℝ)), r, d⟩] ∧
    ∀ prev : Circle, cs.getLast? = some prev → 0 < prev.radius → 0 < r →
      (Space.add_circle cs r d).getLast?
          = some ⟨(prev.center.1, prev.center.2 + prev.radius + r), r, d⟩ ∧
      calc_distance prev.center (prev.center.1, prev.center.2 + prev.radius + r)
          = prev.radius + r := by
  constructor
  · rfl
  · intro prev hprev hr1 hr2
    constructor
    · unfold Space.add_circle
      rw [hprev]
      exact List.getLast?_concat _
    · unfold calc_distance
      rw [show (prev.center.1 - prev.center.1) ^ 2
            + (prev.center.2 + prev.radius + r - prev.center.2) ^ 2
          = (prev.radius + r) ^ 2 by ring]
      exact Real.sqrt_sq (by linarith)

/-- C6 witness: appending a radius-2 circle after a radius-1 circle. -/
theorem add_circle_placement_witness :
    Space.add_circle [] 2 false = [⟨((0 : ℝ), (0 : ℝ)), 2, false⟩] ∧
    (Space.add_circle [⟨((0 : ℝ), (0 : ℝ)), 1, false⟩] 2 false).getLast?
        = some ⟨((0 : ℝ), (0 : ℝ) + 1 + 2), 2, false⟩ ∧
    calc_distance ((0 : ℝ), (0 : ℝ)) ((0 : ℝ), (0 : ℝ) + 1 + 2) = 1 + 2 := by
  have h := add_circle_placement [⟨((0 : ℝ), (0 : ℝ)), 1, false⟩] 2 false
  refine ⟨h.1, ?_, ?_⟩
  · exact (h.2 ⟨((0 : ℝ), (0 : ℝ)), 1, false⟩ rfl (by norm_num) (by norm_num)).1
  · exact (h.2 ⟨((0 : ℝ), (0 : ℝ)), 1, false⟩ rfl (by norm_num) (by norm_num)).2

/-- Python `round` (banker's rounding, round-half-to-even), used by
`space2canvas` to produce integer canvas coordinates. -/
noncomputable def pyround (x : ℝ) : ℤ :=
  if x - ⌊x⌋ < 1 / 2 then ⌊x⌋
  else if 1 / 2 < x - ⌊x⌋ then ⌊x⌋ + 1
  else if 2 ∣ ⌊x⌋ then ⌊x⌋ else ⌊x⌋ + 1

lemma pyround_intCast (a : ℤ) : pyround (a : ℝ) = a := by
  unfold pyround
  rw [Int.floor_intCast, if_pos (by norm_num)]

/-- `Space.space2canvas(point)` from the source (`width`/`height` are the
`Space` constructor arguments): rounds to integer canvas coordinates. -/
noncomputable def Space.space2canvas (width height : ℤ) (point : ℝ × ℝ) : ℤ × ℤ :=
  (pyround ((width : ℝ) / 2 + point.1), pyround ((height : ℝ) / 2 - point.2))

/-- `Space.canvas2space(point)` from the source. -/
noncomputable def Space.canvas2space (width height : ℤ) (point : ℤ × ℤ) : ℝ × ℝ :=
  ((point.1 : ℝ) - (width : ℝ) / 2, (height : ℝ) / 2 - (point.2 : ℝ))

/-- C10 counterexample: `space2canvas` rounds to integer pixels, so the
round trip is not the identity: on a 1000x1000 space the point `(1/4, 0)`
comes back as `(0, 0)`. -/
theorem canvas2space_space2canvas_ne :
    Space.canvas2space 1000 1000
        (Space.space2canvas 1000 1000 ((1 / 4 : ℝ), (0 : ℝ)))
      ≠ ((1 / 4 : ℝ), (0 : ℝ)) := by
  have hx : pyround (((1000 : ℤ) : ℝ) / 2 + 1 / 4) = 500 := by
    have he : ((1000 : ℤ) : ℝ) / 2 + 1 / 4 = 500 + 1 / 4 := by norm_num
    have hf : ⌊(500 + 1 / 4 : ℝ)⌋ = 500 := by
      rw [Int.floor_eq_iff]
      constructor <;> norm_num
    rw [he]
    unfold pyround
    rw [hf, if_pos (by norm_num)]
  have hy : pyround (((1000 : ℤ) : ℝ) / 2 - 0) = 500 := by
    have he : ((1000 : ℤ) : ℝ) / 2 - 0 = ((500 : ℤ) : ℝ) := by norm_num
    rw [he, pyround_intCast]
  unfold Space.space2canvas Space.canvas2space
  simp only [hx, hy]
  intro hcontra
  have h1 := congrArg Prod.fst hcontra
  simp only at h1
  norm_num at h1

/-- C10 (amended): `space2canvas` computes
`(round(W/2 + x), round(H/2 - y))`, so `canvas2space` inverts it exactly
only on points whose canvas images need no rounding, i.e. whenever
`W/2 + x` and `H/2 - y` are integers; in general the round trip loses the
sub-pixel fraction. -/
theorem canvas2space_space2canvas_int (width height : ℤ) (p : ℝ × ℝ) (a b : ℤ)
    (ha : (width : ℝ) / 2 + p.1 = a) (hb : (height : ℝ) / 2 - p.2 = b) :
    Space.canvas2space width height (Space.space2canvas width height p) = p := by
  unfold Space.space2canvas Space.canvas2space
  rw [ha, hb, pyround_intCast, pyround_intCast]
  apply Prod.ext_iff.mpr
  constructor
  · simp only
    linarith
  · simp only
    linarith

/-- C10 amended-theorem witness: on a 1000x1000 space the integer point
`(3, -7)` survives the round trip. -/
theorem canvas2space_space2canvas_int_witness :
    Space.canvas2space 1000 1000
        (Space.space2canvas 1000 1000 ((3 : ℝ), (-7 : ℝ)))
      = ((3 : ℝ), (-7 : ℝ)) :=
  canvas2space_space2canvas_int 1000 1000 ((3 : ℝ), (-7 : ℝ)) 503 507
    (by norm_num) (by norm_num)

/-- Python `int()` applied to a float: truncation toward zero. -/
noncomputable def py_int (x : ℝ) : ℤ := if 0 ≤ x then ⌊x⌋ else -⌊-x⌋

/-- The trip count of the driving loop of `main`:
`range(0, int(math.pi * 2 / STEP_SIZE))`. -/
noncomputable def tick_budget : ℕ := (py_int (Real.pi * 2 / STEP_SIZE)).toNat

lemma two_pi_div_step : Real.pi * 2 / STEP_SIZE = 7200 := by
  unfold STEP_SIZE radians
  rw [div_eq_iff (by positivity), show (0.05 : ℝ) = 5 / 100 by norm_num]
  ring

lemma tick_budget_val : tick_budget = 7200 := by
  unfold tick_budget py_int
  rw [two_pi_div_step, if_pos (by norm_num),
    show (7200 : ℝ) = ((7200 : ℤ) : ℝ) by norm_num, Int.floor_intCast]
  rfl

/-- C8: the driving loop executes exactly `ceil(2π / STEP_SIZE)` ticks
(the exact quotient `2π / STEP_SIZE` is the integer 7200, so the `int`
truncation performed by the source equals the ceiling). -/
theorem tick_budget_eq_ceil : (tick_budget : ℤ) = ⌈Real.pi * 2 / STEP_SIZE⌉ := by
  rw [tick_budget_val, two_pi_div_step,
    show (7200 : ℝ) = ((7200 : ℤ) : ℝ) by norm_num, Int.ceil_intCast]
  norm_num

/-- One tick of the driving loop of `main`: the six `rotate_circle` calls
with the example recipe `1, -3, 9, -27, 81, -243`. -/
noncomputable def tick (cs : List Circle) : Except (List Circle) (List Circle) :=
  (Space.rotate_circle cs 1 1).bind fun cs1 =>
  (Space.rotate_circle cs1 2 (-3)).bind fun cs2 =>
  (Space.rotate_circle cs2 3 9).bind fun cs3 =>
  (Space.rotate_circle cs3 4 (-27)).bind fun cs4 =>
  (Space.rotate_circle cs4 5 81).bind fun cs5 =>
  Space.rotate_circle cs5 6 (-243)

/-- `n` iterations of the driving loop body. -/
noncomputable def run_ticks : ℕ → List Circle → Except (List Circle) (List Circle)
  | 0, cs => Except.ok cs
  | n + 1, cs => (run_ticks n cs).bind tick

/-- The chain built by `main`: radii `150, 80, 40, 20, 10, 5, 1`, only the
last circle tracing. -/
noncomputable def init_chain : List Circle :=
  Space.add_circle
    (Space.add_circle
      (Space.add_circle
        (Space.add_circle
          (Space.add_circle
            (Space.add_circle
              (Space.add_circle [] 150 false)
              80 false)
            40 false)
          20 false)
        10 false)
      5 false)
    1 true

lemma init_chain_eq :
    init_chain =
      [⟨((0 : ℝ), (0 : ℝ)), 150, false⟩,
       ⟨((0 : ℝ), (230 : ℝ)), 80, false⟩,
       ⟨((0 : ℝ), (350 : ℝ)), 40, false⟩,
       ⟨((0 : ℝ), (410 : ℝ)), 20, false⟩,
       ⟨((0 : ℝ), (440 : ℝ)), 10, false⟩,
       ⟨((0 : ℝ), (455 : ℝ)), 5, false⟩,
       ⟨((0 : ℝ), (461 : ℝ)), 1, true⟩] := by
  unfold init_chain Space.add_circle
  norm_num [List.getLast?_cons_cons, List.getLast?_singleton]

/-- A `rotate_circle` call with pivot index at least 2 succeeds on a long
enough chain and does not touch circles 0 and 1. -/
lemma rotate_circle_hi (cs : List Circle) (i n : ℤ) (h1 : 2 ≤ i)
    (h2 : i < (cs.length : ℤ)) :
    ∃ res, Space.rotate_circle cs i n = Except.ok res ∧
      res.length = cs.length ∧ res[0]? = cs[0]? ∧ res[1]? = cs[1]? := by
  obtain ⟨res, hres, hlen, hget⟩ := rotate_circle_spec cs i n (by omega) h2
  refine ⟨res, hres, hlen, ?_, ?_⟩
  · rw [hget 0, if_neg (by omega)]
  · rw [hget 1, if_neg (by omega)]

lemma rotate_point_polar_origin (r a : ℝ) (hr : 0 < r) :
    rotate_point ((0 : ℝ), (0 : ℝ)) (Real.cos a * r, Real.sin a * r) true
      = (Real.cos (a - STEP_SIZE) * r, Real.sin (a - STEP_SIZE) * r) := by
  have h := rotate_point_polar ((0 : ℝ), (0 : ℝ)) r a hr true
  simpa [sub_eq_add_neg] using h

/-- The `rotate_circle(1, 1)` call of a tick: with circle 0 at the origin
and circle 1 at polar angle `a` and distance 230 from it, circle 1's polar
angle is stepped clockwise by one `STEP_SIZE`. -/
lemma rotate_circle_one_step (cs : List Circle) (a : ℝ)
    (hlen : 7 ≤ cs.length)
    (h0 : cs[0]? = some ⟨((0 : ℝ), (0 : ℝ)), 150, false⟩)
    (h1 : cs[1]? = some ⟨(Real.cos a * 230, Real.sin a * 230), 80, false⟩) :
    ∃ res, Space.rotate_circle cs 1 1 = Except.ok res ∧
      res.length = cs.length ∧
      res[0]? = cs[0]? ∧
      res[1]? = some ⟨(Real.cos (a - STEP_SIZE) * 230,
        Real.sin (a - STEP_SIZE) * 230), 80, false⟩ := by
  obtain ⟨res, hres, hlen', hget⟩ :=
    rotate_circle_spec cs 1 1 (by norm_num) (by omega)
  refine ⟨res, hres, hlen', ?_, ?_⟩
  · rw [hget 0, if_neg (by omega)]
  · rw [hget 1, if_pos (by omega), h1]
    have hgetD : cs.getD ((1 : ℤ).toNat - 1) default
        = ⟨((0 : ℝ), (0 : ℝ)), 150, false⟩ := by
      rw [List.getD_eq_getElem?_getD, show (1 : ℤ).toNat - 1 = 0 from rfl, h0]
      rfl
    rw [hgetD]
    simp only [Option.map_some', Int.natAbs_one, Function.iterate_one]
    have hdec : decide ((1 : ℤ) > 0) = true := rfl
    rw [hdec]
    unfold Circle.rotate
    have hcenter : (⟨(Real.cos a * 230, Real.sin a * 230), 80, false⟩ : Circle).center
        = (Real.cos a * 230, Real.sin a * 230) := rfl
    rw [hcenter, rotate_point_polar_origin 230 a (by norm_num)]

/-- One full tick preserves the invariant: chain length 7, circle 0 fixed
at the origin, circle 1 on the radius-230 orbit with its polar angle
advanced clockwise by one `STEP_SIZE`. -/
lemma tick_step (cs : List Circle) (a : ℝ) (hlen : cs.length = 7)
    (h0 : cs[0]? = some ⟨((0 : ℝ), (0 : ℝ)), 150, false⟩)
    (h1 : cs[1]? = some ⟨(Real.cos a * 230, Real.sin a * 230), 80, false⟩) :
    ∃ cs', tick cs = Except.ok cs' ∧ cs'.length = 7 ∧
      cs'[0]? = some ⟨((0 : ℝ), (0 : ℝ)), 150, false⟩ ∧
      cs'[1]? = some ⟨(Real.cos (a - STEP_SIZE) * 230,
        Real.sin (a - STEP_SIZE) * 230), 80, false⟩ := by
  obtain ⟨c1, e1, l1, g10, g11⟩ := rotate_circle_one_step cs a (by omega) h0 h1
  obtain ⟨c2, e2, l2, g20, g21⟩ := rotate_circle_hi c1 2 (-3) (by norm_num) (by omega)
  obtain ⟨c3, e3, l3, g30, g31⟩ := rotate_circle_hi c2 3 9 (by norm_num) (by omega)
  obtain ⟨c4, e4, l4, g40, g41⟩ := rotate_circle_hi c3 4 (-27) (by norm_num) (by omega)
  obtain ⟨c5, e5, l5, g50, g51⟩ := rotate_circle_hi c4 5 81 (by norm_num) (by omega)
  obtain ⟨c6, e6, l6, g60, g61⟩ := rotate_circle_hi c5 6 (-243) (by norm_num) (by omega)
  refine ⟨c6, ?_, by omega, ?_, ?_⟩
  · unfold tick
    rw [e1]
    simp only [Except.bind]
    rw [e2]
    simp only [Except.bind]
    rw [e3]
    simp only [Except.bind]
    rw [e4]
    simp only [Except.bind]
    rw [e5]
    simp only [Except.bind]
    exact e6
  · rw [g60, g50, g40, g30, g20, g10, h0]
  · rw [g61, g51, g41, g31, g21, g11]

/-- Invariant of the driving loop, by induction on the tick count: after
`n` ticks from the `main` chain, circle 0 is still at the origin and
circle 1 sits at polar angle `π/2 - n * STEP_SIZE` on its radius-230
orbit. -/
lemma run_ticks_inv (n : ℕ) :
    ∃ cs, run_ticks n init_chain = Except.ok cs ∧ cs.length = 7 ∧
      cs[0]? = some ⟨((0 : ℝ), (0 : ℝ)), 150, false⟩ ∧
      cs[1]? = some ⟨(Real.cos (Real.pi / 2 - n * STEP_SIZE) * 230,
        Real.sin (Real.pi / 2 - n * STEP_SIZE) * 230), 80, false⟩ := by
  induction n with
  | zero =>
      refine ⟨init_chain, rfl, ?_, ?_, ?_⟩
      · rw [init_chain_eq]
        rfl
      · rw [init_chain_eq]
        rfl
      · rw [init_chain_eq]
        norm_num [Real.cos_pi_div_two, Real.sin_pi_div_two]
  | succ n ih =>
      obtain ⟨cs, hrun, hlen, h0, h1⟩ := ih
      obtain ⟨cs', htick, hlen', h0', h1'⟩ :=
        tick_step cs (Real.pi / 2 - n * STEP_SIZE) hlen h0 h1
      refine ⟨cs', ?_, hlen', h0', ?_⟩
      · show (run_ticks n init_chain).bind tick = Except.ok cs'
        rw [hrun]
        simp only [Except.bind]
        exact htick
      · rw [h1']
        have hang : Real.pi / 2 - (n : ℝ) * STEP_SIZE - STEP_SIZE
            = Real.pi / 2 - ((n : ℕ) + 1 : ℕ) * STEP_SIZE := by
          push_cast
          ring
        rw [hang]

/-- C9: running the full tick budget of `main` with the example recipe
leaves circle 1 exactly back at its starting position `(0, 230)`; its
accumulated rotation of `7200 * STEP_SIZE` is exactly one full clockwise
revolution. -/
theorem run_full_budget_circle1_returns :
    ∃ cs, run_ticks tick_budget init_chain = Except.ok cs ∧
      cs[1]? = some ⟨((0 : ℝ), (230 : ℝ)), 80, false⟩ := by
  obtain ⟨cs, hrun, hlen, h0, h1⟩ := run_ticks_inv tick_budget
  refine ⟨cs, hrun, ?_⟩
  rw [h1]
  have hang : Real.pi / 2 - (tick_budget : ℝ) * STEP_SIZE
      = Real.pi / 2 - 2 * Real.pi := by
    rw [tick_budget_val]
    unfold STEP_SIZE radians
    rw [show (0.05 : ℝ) = 5 / 100 by norm_num]
    push_cast
    ring
  rw [hang, Real.cos_sub_two_pi, Real.sin_sub_two_pi,
    Real.cos_pi_div_two, Real.sin_pi_div_two]
  norm_num

end Spiralfun
